import Mathlib

/-!
A verification development for a family of CNF SAT deciders: a pure
resolution (saturation) engine, a Davis-Putnam variable-elimination engine,
and a DPLL backtracking engine, together with the DIMACS parsers feeding
them.

Modelling conventions.

* A literal is a nonzero `Int`; a clause (a Python `frozenset` of literals
  in the source) is modelled as a strictly ascending, duplicate-free
  `List Int`.  Every clause the program builds is obtained from the
  canonicalising constructors below (`canon`, `cunion`, `List.erase`),
  which preserve that normal form, so list equality coincides with the
  extensional set equality of `frozenset`.
* Where the source iterates over a Python set (whose order is unspecified),
  the model iterates in the canonical ascending order; where it iterates
  over a Python list, the model keeps the list order.
* Wall-clock deadline polling is modelled by a fuel parameter: each poll
  point consumes one unit, and a poll with fuel `0` observes an expired
  deadline.  The verdict type is `Option Bool`: `some true` is SAT,
  `some false` is UNSAT, and `none` is the TIMEOUT sentinel.
* Loops of the source that are `while True:` loops are modelled with an
  explicit iteration budget; a budget of `length + 1` is exact for every
  reachable state (each productive iteration removes at least one clause).
-/

/-! ## Clauses as canonically sorted literal lists -/

abbrev Clause := List Int

/-- Absolute value on literals, as used by the Python sources via abs. -/
def iabs (l : Int) : Int := if l < 0 then -l else l

/-- Ordered duplicate-free insertion: the canonicalising primitive. -/
def cinsert (x : Int) : Clause → Clause
  | [] => [x]
  | y :: ys => if x < y then x :: y :: ys else if x = y then y :: ys else y :: cinsert x ys

/-- Build the canonical clause for a list of literals (models frozenset). -/
def canon (ls : List Int) : Clause := ls.foldl (fun c x => cinsert x c) []

/-- Union of two canonical clauses (models frozenset union). -/
def cunion (a b : Clause) : Clause := a.foldl (fun c x => cinsert x c) b

/-- Bool subset test between clauses (models frozenset.issubset). -/
def issubset (a b : Clause) : Bool := a.all (fun x => decide (x ∈ b))

/-- A clause is a tautology when it holds a literal and its negation
(resolution_solver.py, is_tautology). -/
def is_tautology (c : Clause) : Bool := c.any (fun l => decide ((-l) ∈ c))

/-- The unit literals of a clause list: the sole literal of each
one-literal clause, in clause-list order.  Models the comprehension
`[next(iter(c)) for c in clauses if len(c) == 1]` shared by the DP and
DPLL sources. -/
def unitsOf (clauses : List Clause) : List Int :=
  clauses.filterMap (fun c => if c.length = 1 then c.head? else none)

/-- All unordered pairs of a snapshot list, enumerated by index `i < j`
(resolution_solver.py, the nested loops of pure_resolution). -/
def listPairs : List Clause → List (Clause × Clause)
  | [] => []
  | x :: xs => xs.map (fun y => (x, y)) ++ listPairs xs

/-- Duplicate removal keeping first occurrences: the deterministic model
of building a Python set from a list of clauses. -/
def pySetAux (seen : List Clause) : List Clause → List Clause
  | [] => []
  | c :: rest => if c ∈ seen then pySetAux seen rest else c :: pySetAux (c :: seen) rest

/-- Models `set(clauses)` for a clause list. -/
def pySet (cs : List Clause) : List Clause := pySetAux [] cs

/-- Partial assignments (Python dict from variable to bool), as an
association list with most recent binding first. -/
abbrev Assign := List (Int × Bool)

/-! ## resolution_solver.py -/

namespace Res

/-- First literal of the first clause whose negation occurs in the second
clause, scanning the first clause in canonical order (can_resolve). -/
def can_resolve (c1 c2 : Clause) : Option Int :=
  c1.find? (fun l => decide ((-l) ∈ c2))

/-- The resolvent of two clauses on a literal (resolve). -/
def resolveOn (c1 c2 : Clause) (lit : Int) : Clause :=
  cunion (c1.erase lit) (c2.erase (-lit))

/-- One saturation round over a fixed pair list: returns `none` when the
empty clause is derived (immediate UNSAT), otherwise the list of fresh
resolvents in discovery order (pure_resolution, inner nested loops). -/
def saturationRound (all : List Clause) :
    List (Clause × Clause) → List Clause → Option (List Clause)
  | [], news => some news
  | (c1, c2) :: rest, news =>
    match can_resolve c1 c2 with
    | none => saturationRound all rest news
    | some lit =>
      let r := resolveOn c1 c2 lit
      if is_tautology r then saturationRound all rest news
      else if r = [] then none
      else if r ∈ all ∨ r ∈ news then saturationRound all rest news
      else saturationRound all rest (news ++ [r])

/-- The saturation loop of pure_resolution: the deadline is polled at the
top of every round (fuel `0` observes expiry and yields the TIMEOUT
sentinel `none`). -/
def loop : Nat → List Clause → Option Bool
  | 0, _ => none
  | fuel+1, all =>
    match saturationRound all (listPairs all) [] with
    | none => some false
    | some news => if news = [] then some true else loop fuel (all ++ news)

/-- pure_resolution: checks for an already-present empty clause before the
first round, then saturates.  The resolvent counter and status string of
the source, which carry no extra information about the verdict, are not
modelled. -/
def pure_resolution (fuel : Nat) (clauses : List Clause) : Option Bool :=
  let all := pySet clauses
  if ([] : Clause) ∈ all then some false else loop fuel all

end Res

/-! ## dp_solver.py -/

namespace DP

/-- The clause rebuilding pass of one unit-propagation step: drop clauses
holding `lit`, strip `-lit` from the rest; `none` signals the conflict
return triggered when stripping empties a clause (unit_propagate,
lines 56-66). -/
def propScan (lit : Int) : List Clause → Option (List Clause)
  | [] => some []
  | c :: rest =>
    if lit ∈ c then propScan lit rest
    else if (-lit) ∈ c then
      let c2 := c.erase (-lit)
      if c2 = [] then none
      else (propScan lit rest).map (fun l2 => c2 :: l2)
    else (propScan lit rest).map (fun l2 => c :: l2)

/-- The `while True` loop of unit_propagate, with an explicit iteration
budget.  A budget exhaustion (`none`) models divergence of the source
loop; it can only happen through the `continue` branch, which re-examines
the same unit clause with unchanged state and therefore never terminates
in the source either.  That branch is unreachable from an empty
assignment, because propagating a literal removes its variable from every
clause. -/
def unitLoop : Nat → List Clause → Assign → Option (List Clause × Bool × Assign)
  | 0, _, _ => none
  | fuel+1, clauses, assign =>
    match unitsOf clauses with
    | [] => some (clauses, false, assign)
    | lit :: _ =>
      let var := iabs lit
      let val := decide (lit > 0)
      match assign.lookup var with
      | some v => if v = val then unitLoop fuel clauses assign else some ([], true, [])
      | none =>
        match propScan lit clauses with
        | none => some ([], true, [])
        | some news => unitLoop fuel news ((var, val) :: assign)

/-- unit_propagate of dp_solver.py.  Each productive iteration of the loop
drops the propagated unit clause, so a budget of `length + 1` is exact. -/
def unit_propagate (clauses : List Clause) : Option (List Clause × Bool × Assign) :=
  unitLoop (clauses.length + 1) clauses []

/-- pure_literal_elimination of dp_solver.py: drop every clause holding a
literal whose negation occurs nowhere.  When no pure literal exists the
source returns the input list itself; the filter below then keeps every
clause, which is the same list value. -/
def pure_literal_elimination (clauses : List Clause) : List Clause :=
  let occ := clauses.foldl (fun a c => a ++ c) []
  clauses.filter (fun c => !(c.any (fun l => decide (l ∈ occ) && !(decide ((-l) ∈ occ)))))

/-- simplify_clauses of dp_solver.py, translated exactly as written: a new
clause is skipped when it is a subset of a stored one, and stored clauses
that are subsets of the new clause are dropped before it is appended. -/
def simplify_clauses (clauses : List Clause) : List Clause :=
  clauses.foldl
    (fun unique c =>
      if unique.any (fun d => issubset c d) then unique
      else unique.filter (fun d => !(issubset d c)) ++ [c])
    []

/-- The sorted list of variables mentioned by the formula
(`sorted(all_vars)` in dp_solve). -/
def allVarsSorted (clauses : List Clause) : List Int :=
  canon ((clauses.foldl (fun a c => a ++ c) []).map iabs)

/-- The smallest variable with both a positive and a negative occurrence
(the for/else variable-selection loop of dp_solve); `none` means every
variable is pure and the formula is reported SAT. -/
def pickVar (clauses : List Clause) : Option Int :=
  (allVarsSorted clauses).find? (fun v =>
    clauses.any (fun c => decide (v ∈ c)) && clauses.any (fun c => decide ((-v) ∈ c)))

/-- Resolvents of one positive clause against every negative clause, in
order: a resolvent still mentioning the eliminated variable is skipped,
and an empty resolvent aborts with `none` (the `return False` of
dp_solve's resolution block). -/
def resolveOne (v : Int) (p : Clause) : List Clause → Option (List Clause)
  | [] => some []
  | n :: rest =>
    let res := cunion (p.erase v) (n.erase (-v))
    if res.any (fun l => decide (iabs l = v)) then resolveOne v p rest
    else if res = [] then none
    else (resolveOne v p rest).map (fun rs => res :: rs)

/-- The full elimination step on variable `v`: all resolvents of the
positive against the negative occurrence lists (dp_solve, lines 134-143). -/
def eliminate (v : Int) : List Clause → List Clause → Option (List Clause)
  | [], _ => some []
  | p :: ps, neg =>
    match resolveOne v p neg with
    | none => none
    | some rs =>
      match eliminate v ps neg with
      | none => none
      | some rest => some (rs ++ rest)

/-- dp_solve.  The deadline is polled at the top of every recursive call
(fuel `0` observes expiry and yields the TIMEOUT sentinel `none`).  The
`none` branch after unit_propagate mirrors an unreachable state: the
propagation loop always terminates from an empty assignment. -/
def dp_solve : Nat → List Clause → Option Bool
  | 0, _ => none
  | fuel+1, clauses =>
    match unit_propagate clauses with
    | none => none
    | some (cs, conflict, _) =>
      if conflict then some false
      else if cs = [] then some true
      else
        let pured := pure_literal_elimination cs
        if pured ≠ cs then dp_solve fuel pured
        else
          let cs2 := simplify_clauses cs
          match pickVar cs2 with
          | none => some true
          | some v =>
            let pos := cs2.filter (fun c => decide (v ∈ c))
            let neg := cs2.filter (fun c => decide ((-v) ∈ c))
            match eliminate v pos neg with
            | none => some false
            | some resolvents =>
              let rest := cs2.filter (fun c => !(decide (v ∈ c)) && !(decide ((-v) ∈ c)))
              dp_solve fuel (simplify_clauses (rest ++ resolvents))

end DP

/-! ## dpll_solver.py -/

namespace DPLL

/-- The clause rebuilding pass of one unit-propagation step of
dpll_solver.py: unlike the DP variant it returns the partially rebuilt
list, with the produced empty clause appended, on conflict
(unit_propagate, lines 57-69). -/
def scan (lit : Int) : List Clause → List Clause → Except (List Clause) (List Clause)
  | acc, [] => Except.ok acc
  | acc, c :: rest =>
    if lit ∈ c then scan lit acc rest
    else if (-lit) ∈ c then
      let c2 := c.erase (-lit)
      if c2 = [] then Except.error (acc ++ [c2])
      else scan lit (acc ++ [c2]) rest
    else scan lit (acc ++ [c]) rest

/-- The `while changed` loop of unit_propagate in dpll_solver.py.  Only
the first unit of each pass is processed (the `for` body ends in
`break`).  A variable already assigned with the opposite value returns a
conflict; one assigned with the same value is propagated again without
rebinding.  Every non-returning pass drops the propagated unit clause, so
a budget of `length + 1` is exact and exhaustion (`none`) is
unreachable. -/
def unitLoop : Nat → List Clause → Assign → Option (List Clause × Bool)
  | 0, _, _ => none
  | fuel+1, clauses, assign =>
    match unitsOf clauses with
    | [] => some (clauses, false)
    | lit :: _ =>
      let var := iabs lit
      let val := decide (lit > 0)
      match assign.lookup var with
      | some v =>
        if v = val then
          match scan lit [] clauses with
          | Except.error bad => some (bad, true)
          | Except.ok news => unitLoop fuel news assign
        else some (clauses, true)
      | none =>
        match scan lit [] clauses with
        | Except.error bad => some (bad, true)
        | Except.ok news => unitLoop fuel news ((var, val) :: assign)

/-- unit_propagate of dpll_solver.py. -/
def unit_propagate (clauses : List Clause) : Option (List Clause × Bool) :=
  unitLoop (clauses.length + 1) clauses []

/-- pure_literal_elimination of dpll_solver.py: same filter as the DP
variant but also reports whether anything was pure. -/
def pure_literal_elimination (clauses : List Clause) : List Clause × Bool :=
  let occ := clauses.foldl (fun a c => a ++ c) []
  if occ.any (fun l => !(decide ((-l) ∈ occ))) then
    (clauses.filter
        (fun c => !(c.any (fun l => decide (l ∈ occ) && !(decide ((-l) ∈ occ))))),
      true)
  else (clauses, false)

/-- simplify of dpll_solver.py: assume `lit` true, drop satisfied clauses
and strip the falsified literal from the rest. -/
def simplify (clauses : List Clause) (lit : Int) : List Clause :=
  clauses.filterMap (fun c =>
    if lit ∈ c then none
    else if (-lit) ∈ c then some (c.erase (-lit))
    else some c)

/-- dpll_solve.  The deadline is polled at the top of every recursive call
(fuel `0` observes expiry and yields the TIMEOUT sentinel `none`, which
each branching site passes through unchanged).  The decision literal
`next(iter(clauses[0]))` is modelled as the head of the canonical clause;
the two defensive `some false` fallbacks sit on paths already excluded by
the emptiness tests just above them.  The `none` branch after
unit_propagate mirrors an unreachable state: the propagation loop always
terminates. -/
def dpll_solve : Nat → List Clause → Option Bool
  | 0, _ => none
  | fuel+1, clauses =>
    match unit_propagate clauses with
    | none => none
    | some (cs, conflict) =>
      if conflict then some false
      else
        let pr := pure_literal_elimination cs
        if pr.2 then dpll_solve fuel pr.1
        else
          match cs with
          | [] => some true
          | c0 :: _ =>
            if cs.any (fun c => decide (c = [])) then some false
            else
              match c0.head? with
              | none => some false
              | some lit =>
                match dpll_solve fuel (simplify cs lit) with
                | none => none
                | some true => some true
                | some false => dpll_solve fuel (simplify cs (-lit))

end DPLL

/-! ## DIMACS parsing

The parsers read a file line by line.  File access is modelled by taking
the list of lines as input.  Python string operations are modelled on the
underlying character lists: strip, whitespace split, single-character
startswith, and int conversion.  The sets of mentioned variables returned
alongside the clause lists are printed only, never consumed by an engine,
and are not modelled. -/

/-- Whitespace in the sense of Python str.strip and str.split (vertical
tab and form feed, which cannot occur in a line, are omitted). -/
def wsChar (c : Char) : Bool := c == ' ' || c == '\t' || c == '\n' || c == '\r'

/-- Python line.strip as a character list. -/
def pyStrip (s : String) : List Char :=
  ((s.data.dropWhile wsChar).reverse.dropWhile wsChar).reverse

/-- Helper for whitespace splitting: accumulates the current token in
reverse. -/
def splitWsAux : List Char → List Char → List (List Char)
  | [], cur => if cur = [] then [] else [cur.reverse]
  | c :: cs, cur =>
    if wsChar c then
      if cur = [] then splitWsAux cs [] else cur.reverse :: splitWsAux cs []
    else splitWsAux cs (c :: cur)

/-- Python line.split with no separator: whitespace runs, empty tokens
dropped. -/
def splitWs (l : List Char) : List (List Char) := splitWsAux l []

/-- Digit accumulation for int conversion. -/
def digitsAux : List Char → Nat → Option Nat
  | [], acc => some acc
  | c :: cs, acc =>
    if '0' ≤ c ∧ c ≤ '9' then digitsAux cs (acc * 10 + (c.toNat - '0'.toNat))
    else none

/-- Python int applied to a token: an optional minus sign followed by at
least one digit (the inputs at issue hold no other int spellings). -/
def toIntTok : List Char → Option Int
  | [] => none
  | '-' :: [] => none
  | '-' :: c :: cs => (digitsAux (c :: cs) 0).map (fun n => -(n : Int))
  | c :: cs => (digitsAux (c :: cs) 0).map (fun n => (n : Int))

/-- The token 0 that terminates a clause line. -/
def zeroTok : List Char := ['0']

/-- The format-type token cnf of a DIMACS header. -/
def cnfTok : List Char := ['c', 'n', 'f']

namespace Res

/-- One line of parse_cnf in resolution_solver.py: comments, blanks, `%`
lines and `p` lines are skipped, a trailing `0` token is stripped, and
non-integer tokens are skipped silently; only a non-empty residue becomes
a clause. -/
def parseLine (acc : List Clause) (line : String) : List Clause :=
  let l := pyStrip line
  if l = [] ∨ l.head? = some 'c' ∨ l.head? = some '%' then acc
  else if l.head? = some 'p' then acc
  else
    let parts := splitWs l
    let parts := if parts ≠ [] ∧ parts.getLast? = some zeroTok then parts.dropLast else parts
    let clause := canon (parts.filterMap
      (fun t => if t = [] ∨ t = zeroTok then none else toIntTok t))
    if clause ≠ [] then acc ++ [clause] else acc

/-- The line loop of parse_cnf in resolution_solver.py. -/
def parseLines (acc : List Clause) : List String → List Clause
  | [] => acc
  | line :: rest => parseLines (parseLine acc line) rest

/-- parse_cnf of resolution_solver.py: the accumulated clause list, made
into a set at the end (`return set(clauses), variables`). -/
def parse_cnf (lines : List String) : List Clause :=
  pySet (parseLines [] lines)

end Res

namespace DP

/-- Conversion of every token of a clause line (`list(map(int, ...))`);
`none` models the ValueError raised on the first bad token. -/
def mapIntAll : List (List Char) → Option (List Int)
  | [] => some []
  | t :: ts =>
    match toIntTok t with
    | none => none
    | some v => (mapIntAll ts).map (fun vs => v :: vs)

/-- One line of parse_cnf in dp_solver.py: comments and blanks are
skipped; a `p` line must have the format type cnf in second position and
an integer variable count in third position, anything else raises; every
other line is converted with `map int` (raising on bad tokens), its
trailing literal 0 stripped, and a non-empty residue appended. -/
def parseLine (st : List Clause × Int) (line : String) :
    Except String (List Clause × Int) :=
  let l := pyStrip line
  if l = [] ∨ l.head? = some 'c' then Except.ok st
  else if l.head? = some 'p' then
    let parts := splitWs l
    match parts.get? 1 with
    | none => Except.error "IndexError"
    | some t1 =>
      if t1 = cnfTok then
        match parts.get? 2 with
        | none => Except.error "IndexError"
        | some t2 =>
          match toIntTok t2 with
          | none => Except.error "invalid literal for int"
          | some n => Except.ok (st.1, n)
      else Except.error "Not a CNF file"
  else
    match mapIntAll (splitWs l) with
    | none => Except.error "invalid literal for int"
    | some lits =>
      let lits := if lits ≠ [] ∧ lits.getLast? = some 0 then lits.dropLast else lits
      if lits ≠ [] then Except.ok (st.1 ++ [canon lits], st.2) else Except.ok st

/-- The line loop of parse_cnf in dp_solver.py; an exception aborts the
whole parse. -/
def parseLines (st : List Clause × Int) : List String → Except String (List Clause × Int)
  | [] => Except.ok st
  | line :: rest =>
    match parseLine st line with
    | Except.error e => Except.error e
    | Except.ok st2 => parseLines st2 rest

/-- parse_cnf of dp_solver.py: clause list plus header-declared variable
count. -/
def parse_cnf (lines : List String) : Except String (List Clause × Int) :=
  parseLines ([], 0) lines

end DP

namespace DPLL

/-- Literal collection of a clause line in dpll_solver.py: tokens `0` and
empty tokens are skipped, any other token must convert (`int(lit)` raises
otherwise, modelled by `none`). -/
def litsOf : List (List Char) → Option (List Int)
  | [] => some []
  | t :: ts =>
    if t = zeroTok ∨ t = [] then litsOf ts
    else
      match toIntTok t with
      | none => none
      | some v => (litsOf ts).map (fun vs => v :: vs)

/-- One line of parse_cnf in dpll_solver.py: comments, blanks and `%`
lines are skipped; a `p` line with second token cnf is skipped and any
other `p` line raises Invalid DIMACS format; other lines have a trailing
`0` token stripped and a non-empty residue becomes a clause. -/
def parseLine (acc : List Clause) (line : String) : Except String (List Clause) :=
  let l := pyStrip line
  if l = [] ∨ l.head? = some 'c' ∨ l.head? = some '%' then Except.ok acc
  else if l.head? = some 'p' then
    let parts := splitWs l
    if 2 ≤ parts.length ∧ parts.get? 1 = some cnfTok then Except.ok acc
    else Except.error "Invalid DIMACS format"
  else
    let parts := splitWs l
    let parts := if parts ≠ [] ∧ parts.getLast? = some zeroTok then parts.dropLast else parts
    match litsOf parts with
    | none => Except.error "invalid literal for int"
    | some lits =>
      let clause := canon lits
      if clause ≠ [] then Except.ok (acc ++ [clause]) else Except.ok acc

/-- The line loop of parse_cnf in dpll_solver.py; an exception aborts the
whole parse. -/
def parseLines (acc : List Clause) : List String → Except String (List Clause)
  | [] => Except.ok acc
  | line :: rest =>
    match parseLine acc line with
    | Except.error e => Except.error e
    | Except.ok acc2 => parseLines acc2 rest

/-- parse_cnf of dpll_solver.py. -/
def parse_cnf (lines : List String) : Except String (List Clause) :=
  parseLines [] lines

end DPLL

/-- A line that is a DIMACS header (first stripped character `p`) whose
format-type token — the second whitespace token — is present but differs
from cnf.  Used to state claims about header validation. -/
def nonCnfHeader (L : String) : Prop :=
  (pyStrip L).head? = some 'p' ∧ 2 ≤ (splitWs (pyStrip L)).length ∧
    (splitWs (pyStrip L)).get? 1 ≠ some cnfTok

instance (L : String) : Decidable (nonCnfHeader L) := by
  unfold nonCnfHeader; infer_instance

/-! ## Helper lemmas -/

theorem unitsOf_eq_nil_iff (cs : List Clause) :
    unitsOf cs = [] ↔ ∀ c ∈ cs, c.length ≠ 1 := by
  rw [unitsOf, List.filterMap_eq_nil_iff]
  constructor
  · intro h c hc hlen
    have := h c hc
    rw [if_pos hlen] at this
    cases c with
    | nil => simp at hlen
    | cons a t => simp at this
  · intro h c hc
    rw [if_neg (h c hc)]

theorem DP.dp_unitLoop_units_empty :
    ∀ (fuel : Nat) (cs : List Clause) (a : Assign) (out : List Clause) (aa : Assign),
      DP.unitLoop fuel cs a = some (out, false, aa) → unitsOf out = [] := by
  intro fuel
  induction fuel with
  | zero => intro cs a out aa h; simp [DP.unitLoop] at h
  | succ n ih =>
    intro cs a out aa h
    rw [DP.unitLoop] at h
    cases h1 : unitsOf cs with
    | nil =>
      rw [h1] at h
      simp at h
      rw [← h.1, h1]
    | cons lit rest =>
      rw [h1] at h
      simp only at h
      cases h2 : a.lookup (iabs lit) with
      | some v =>
        rw [h2] at h
        simp only at h
        by_cases h3 : v = decide (lit > 0)
        · rw [if_pos h3] at h
          exact ih cs a out aa h
        · rw [if_neg h3] at h
          simp at h
      | none =>
        rw [h2] at h
        simp only at h
        cases h4 : DP.propScan lit cs with
        | none => rw [h4] at h; simp at h
        | some news =>
          rw [h4] at h
          exact ih news ((iabs lit, decide (lit > 0)) :: a) out aa h

theorem DPLL.dpll_unitLoop_units_empty :
    ∀ (fuel : Nat) (cs : List Clause) (a : Assign) (out : List Clause),
      DPLL.unitLoop fuel cs a = some (out, false) → unitsOf out = [] := by
  intro fuel
  induction fuel with
  | zero => intro cs a out h; simp [DPLL.unitLoop] at h
  | succ n ih =>
    intro cs a out h
    rw [DPLL.unitLoop] at h
    cases h1 : unitsOf cs with
    | nil =>
      rw [h1] at h
      simp at h
      rw [← h, h1]
    | cons lit rest =>
      rw [h1] at h
      simp only at h
      cases h2 : a.lookup (iabs lit) with
      | some v =>
        rw [h2] at h
        simp only at h
        by_cases h3 : v = decide (lit > 0)
        · rw [if_pos h3] at h
          cases h4 : DPLL.scan lit [] cs with
          | error bad => rw [h4] at h; simp at h
          | ok news => rw [h4] at h; exact ih news a out h
        · rw [if_neg h3] at h
          simp at h
      | none =>
        rw [h2] at h
        simp only at h
        cases h4 : DPLL.scan lit [] cs with
        | error bad => rw [h4] at h; simp at h
        | ok news =>
          rw [h4] at h
          exact ih news ((iabs lit, decide (lit > 0)) :: a) out h

theorem DP.dp_propagate_of_no_units (cs : List Clause) (h : unitsOf cs = []) :
    DP.unit_propagate cs = some (cs, false, []) := by
  rw [DP.unit_propagate, DP.unitLoop, h]

theorem DPLL.dpll_propagate_of_no_units (cs : List Clause) (h : unitsOf cs = []) :
    DPLL.unit_propagate cs = some (cs, false) := by
  rw [DPLL.unit_propagate, DPLL.unitLoop, h]

theorem mem_pySetAux (x : Clause) :
    ∀ (cs seen : List Clause), x ∈ pySetAux seen cs → x ∈ cs := by
  intro cs
  induction cs with
  | nil => intro seen h; simp [pySetAux] at h
  | cons c rest ih =>
    intro seen h
    rw [pySetAux] at h
    by_cases h1 : c ∈ seen
    · rw [if_pos h1] at h
      exact List.mem_cons_of_mem c (ih seen h)
    · rw [if_neg h1] at h
      cases h with
      | head => exact List.mem_cons_self _ _
      | tail _ h2 => exact List.mem_cons_of_mem c (ih (c :: seen) h2)

theorem mem_pySet (x : Clause) (cs : List Clause) (h : x ∈ pySet cs) : x ∈ cs :=
  mem_pySetAux x cs [] h

theorem iabs_of_pos (v : Int) (h : 0 < v) : iabs v = v := by
  rw [iabs, if_neg (by omega)]

theorem iabs_neg_of_pos (v : Int) (h : 0 < v) : iabs (-v) = v := by
  rw [iabs, if_pos (by omega)]; omega

theorem DP.resolveOne_no_var (v : Int) (p : Clause) :
    ∀ (neg rs : List Clause), DP.resolveOne v p neg = some rs →
      ∀ r ∈ rs, r.any (fun l => decide (iabs l = v)) = false := by
  intro neg
  induction neg with
  | nil =>
    intro rs h r hr
    rw [DP.resolveOne] at h
    simp at h
    subst h
    simp at hr
  | cons n rest ih =>
    intro rs h r hr
    rw [DP.resolveOne] at h
    by_cases h1 : (cunion (p.erase v) (n.erase (-v))).any (fun l => decide (iabs l = v)) = true
    · rw [if_pos h1] at h
      exact ih rs h r hr
    · rw [if_neg h1] at h
      by_cases h2 : cunion (p.erase v) (n.erase (-v)) = []
      · rw [if_pos h2] at h; simp at h
      · rw [if_neg h2] at h
        cases h3 : DP.resolveOne v p rest with
        | none => rw [h3] at h; simp at h
        | some rs2 =>
          rw [h3] at h
          simp at h
          subst h
          cases hr with
          | head => exact Bool.eq_false_iff.mpr h1
          | tail _ h4 => exact ih rs2 h3 r h4

theorem DP.eliminate_no_var (v : Int) :
    ∀ (pos neg out : List Clause), DP.eliminate v pos neg = some out →
      ∀ r ∈ out, r.any (fun l => decide (iabs l = v)) = false := by
  intro pos
  induction pos with
  | nil =>
    intro neg out h r hr
    rw [DP.eliminate] at h
    simp at h
    subst h
    simp at hr
  | cons p ps ih =>
    intro neg out h r hr
    rw [DP.eliminate] at h
    cases h1 : DP.resolveOne v p neg with
    | none => rw [h1] at h; simp at h
    | some rs =>
      rw [h1] at h
      cases h2 : DP.eliminate v ps neg with
      | none => rw [h2] at h; simp at h
      | some rest =>
        rw [h2] at h
        simp at h
        subst h
        rcases List.mem_append.mp hr with h3 | h3
        · exact DP.resolveOne_no_var v p neg rs h1 r h3
        · exact ih neg rest h2 r h3

theorem cinsert_ne_nil (x : Int) (c : Clause) : cinsert x c ≠ [] := by
  cases c with
  | nil => simp [cinsert]
  | cons y ys =>
    rw [cinsert]
    split
    · simp
    · split <;> simp

theorem foldl_cinsert_ne_nil :
    ∀ (ls : List Int) (c : Clause), c ≠ [] → ls.foldl (fun c x => cinsert x c) c ≠ [] := by
  intro ls
  induction ls with
  | nil => intro c h; simpa
  | cons a t ih =>
    intro c h
    rw [List.foldl_cons]
    exact ih _ (cinsert_ne_nil a c)

theorem canon_ne_nil (ls : List Int) (h : ls ≠ []) : canon ls ≠ [] := by
  cases ls with
  | nil => simp at h
  | cons a t =>
    rw [canon, List.foldl_cons]
    exact foldl_cinsert_ne_nil t _ (cinsert_ne_nil a [])

theorem Res.res_parseLine_nonempty (acc : List Clause) (line : String)
    (hacc : ∀ c ∈ acc, c ≠ []) : ∀ c ∈ Res.parseLine acc line, c ≠ [] := by
  intro c hc
  simp only [Res.parseLine] at hc
  split at hc
  · exact hacc c hc
  · split at hc
    · exact hacc c hc
    · split at hc
      · split at hc
        · rename_i hcl
          rcases List.mem_append.mp hc with h1 | h1
          · exact hacc c h1
          · rw [List.mem_singleton] at h1
            rw [h1]
            exact hcl
        · exact hacc c hc
      · split at hc
        · rename_i hcl
          rcases List.mem_append.mp hc with h1 | h1
          · exact hacc c h1
          · rw [List.mem_singleton] at h1
            rw [h1]
            exact hcl
        · exact hacc c hc

theorem Res.res_parseLines_nonempty :
    ∀ (lines : List String) (acc : List Clause),
      (∀ c ∈ acc, c ≠ []) → ∀ c ∈ Res.parseLines acc lines, c ≠ [] := by
  intro lines
  induction lines with
  | nil =>
    intro acc hacc c hc
    rw [Res.parseLines] at hc
    exact hacc c hc
  | cons l ls ih =>
    intro acc hacc c hc
    rw [Res.parseLines] at hc
    exact ih _ (Res.res_parseLine_nonempty acc l hacc) c hc

theorem DP.dp_parseLine_nonempty (st : List Clause × Int) (line : String)
    (hst : ∀ c ∈ st.1, c ≠ []) :
    ∀ st2, DP.parseLine st line = Except.ok st2 → ∀ c ∈ st2.1, c ≠ [] := by
  intro st2 h c hc
  simp only [DP.parseLine] at h
  split at h
  · simp at h
    subst h
    exact hst c hc
  · split at h
    · split at h
      · simp at h
      · split at h
        · split at h
          · simp at h
          · split at h
            · simp at h
            · simp at h
              subst h
              exact hst c hc
        · simp at h
    · split at h
      · simp at h
      · split at h
        · split at h
          · rename_i hlits
            simp at h
            subst h
            rcases List.mem_append.mp hc with h1 | h1
            · exact hst c h1
            · rw [List.mem_singleton] at h1
              rw [h1]
              exact canon_ne_nil _ hlits
          · simp at h
            subst h
            exact hst c hc
        · split at h
          · rename_i hlits
            simp at h
            subst h
            rcases List.mem_append.mp hc with h1 | h1
            · exact hst c h1
            · rw [List.mem_singleton] at h1
              rw [h1]
              exact canon_ne_nil _ hlits
          · simp at h
            subst h
            exact hst c hc

theorem DP.dp_parseLines_nonempty :
    ∀ (lines : List String) (st : List Clause × Int),
      (∀ c ∈ st.1, c ≠ []) →
      ∀ st2, DP.parseLines st lines = Except.ok st2 → ∀ c ∈ st2.1, c ≠ [] := by
  intro lines
  induction lines with
  | nil =>
    intro st hst st2 h
    rw [DP.parseLines] at h
    simp at h
    subst h
    exact hst
  | cons l ls ih =>
    intro st hst st2 h
    rw [DP.parseLines] at h
    cases h1 : DP.parseLine st l with
    | error e => rw [h1] at h; simp at h
    | ok stm =>
      rw [h1] at h
      exact ih stm (DP.dp_parseLine_nonempty st l hst stm h1) st2 h

theorem DPLL.dpll_parseLine_nonempty (acc : List Clause) (line : String)
    (hacc : ∀ c ∈ acc, c ≠ []) :
    ∀ acc2, DPLL.parseLine acc line = Except.ok acc2 → ∀ c ∈ acc2, c ≠ [] := by
  intro acc2 h c hc
  simp only [DPLL.parseLine] at h
  split at h
  · simp at h
    subst h
    exact hacc c hc
  · split at h
    · split at h
      · simp at h
        subst h
        exact hacc c hc
      · simp at h
    · split at h
      · simp at h
      · split at h
        · rename_i hcl
          simp at h
          subst h
          rcases List.mem_append.mp hc with h1 | h1
          · exact hacc c h1
          · rw [List.mem_singleton] at h1
            rw [h1]
            exact hcl
        · simp at h
          subst h
          exact hacc c hc

theorem DPLL.dpll_parseLines_nonempty :
    ∀ (lines : List String) (acc : List Clause),
      (∀ c ∈ acc, c ≠ []) →
      ∀ acc2, DPLL.parseLines acc lines = Except.ok acc2 → ∀ c ∈ acc2, c ≠ [] := by
  intro lines
  induction lines with
  | nil =>
    intro acc hacc acc2 h
    rw [DPLL.parseLines] at h
    simp at h
    subst h
    exact hacc
  | cons l ls ih =>
    intro acc hacc acc2 h
    rw [DPLL.parseLines] at h
    cases h1 : DPLL.parseLine acc l with
    | error e => rw [h1] at h; simp at h
    | ok accm =>
      rw [h1] at h
      exact ih accm (DPLL.dpll_parseLine_nonempty acc l hacc accm h1) acc2 h

theorem DP.dp_parseLine_header_err (st : List Clause × Int) (L : String)
    (h : nonCnfHeader L) : DP.parseLine st L = Except.error "Not a CNF file" := by
  obtain ⟨h1, h2, h3⟩ := h
  simp only [DP.parseLine]
  split
  · rename_i hcond
    exfalso
    rcases hcond with hx | hx
    · rw [hx] at h1; simp at h1
    · rw [h1] at hx; simp at hx
  · split
    case h_1 =>
      rename_i hg
      rw [List.get?_eq_none] at hg
      omega
    case h_2 =>
      rename_i t1 hg
      have ht : t1 ≠ cnfTok := fun hx => h3 (by rw [hg, hx])
      rw [if_neg ht]

theorem DPLL.dpll_parseLine_header_err (acc : List Clause) (L : String)
    (h : nonCnfHeader L) : DPLL.parseLine acc L = Except.error "Invalid DIMACS format" := by
  obtain ⟨h1, h2, h3⟩ := h
  have hne : ¬(pyStrip L = [] ∨ (pyStrip L).head? = some 'c' ∨ (pyStrip L).head? = some '%') := by
    rintro (hx | hx | hx)
    · rw [hx] at h1; simp at h1
    · rw [h1] at hx; simp at hx
    · rw [h1] at hx; simp at hx
  have hcond : ¬(2 ≤ (splitWs (pyStrip L)).length ∧
      (splitWs (pyStrip L)).get? 1 = some cnfTok) := by
    rintro ⟨hl, hc2⟩
    exact h3 hc2
  simp only [DPLL.parseLine]
  rw [if_neg hne, if_pos h1, if_neg hcond]

theorem DP.dp_parseLines_header_err :
    ∀ (lines : List String) (st : List Clause × Int),
      (∃ L ∈ lines, nonCnfHeader L) →
      ∃ e, DP.parseLines st lines = Except.error e := by
  intro lines
  induction lines with
  | nil =>
    intro st h
    simp at h
  | cons l ls ih =>
    intro st h
    rw [DP.parseLines]
    obtain ⟨L, hL, hN⟩ := h
    rcases List.mem_cons.mp hL with rfl | hmem
    · rw [DP.dp_parseLine_header_err st L hN]
      exact ⟨"Not a CNF file", rfl⟩
    · cases h1 : DP.parseLine st l with
      | error e => exact ⟨e, rfl⟩
      | ok stm => exact ih stm ⟨L, hmem, hN⟩

theorem DPLL.dpll_parseLines_header_err :
    ∀ (lines : List String) (acc : List Clause),
      (∃ L ∈ lines, nonCnfHeader L) →
      ∃ e, DPLL.parseLines acc lines = Except.error e := by
  intro lines
  induction lines with
  | nil =>
    intro acc h
    simp at h
  | cons l ls ih =>
    intro acc h
    rw [DPLL.parseLines]
    obtain ⟨L, hL, hN⟩ := h
    rcases List.mem_cons.mp hL with rfl | hmem
    · rw [DPLL.dpll_parseLine_header_err acc L hN]
      exact ⟨"Invalid DIMACS format", rfl⟩
    · cases h1 : DPLL.parseLine acc l with
      | error e => exact ⟨e, rfl⟩
      | ok accm => exact ih accm ⟨L, hmem, hN⟩

/-! ## Claims -/

/-- Claim C1: the three core engines are claimed to agree on every formula
on which they terminate within budget.  The code refutes this: on the
formula below (whose clause set contains the unsatisfiable core
(1 or 2), (not 1 or 2), (1 or not 2), (not 1 or not 2)) the DP engine
terminates with SAT while the DPLL and resolution engines terminate with
UNSAT.  The DP engine loses the clause (1 or 2) because its subsumption
simplification keeps strict supersets and drops their subsets. -/
theorem c1_engine_disagreement :
    DP.dp_solve 5 [[1, 2], [1, 2, 3], [-1, 2], [-2, 1], [-2, -1], [-3, -2, -1]] = some true ∧
    DPLL.dpll_solve 5 [[1, 2], [1, 2, 3], [-1, 2], [-2, 1], [-2, -1], [-3, -2, -1]] = some false ∧
    Res.pure_resolution 5 [[1, 2], [1, 2, 3], [-1, 2], [-2, 1], [-2, -1], [-3, -2, -1]] =
      some false :=
  ⟨by decide, by decide, by decide⟩

/-- Claim C2: every engine is claimed to return UNSAT on a clause set
holding the empty clause.  The code refutes this for the DP engine: on
the clause set whose only clause is empty, the variable-selection loop of
dp_solve finds no variable and its for/else branch returns SAT.  The
DPLL and resolution engines do return UNSAT. -/
theorem c2_empty_clause_verdicts :
    DP.dp_solve 1 [([] : Clause)] = some true ∧
    DPLL.dpll_solve 1 [([] : Clause)] = some false ∧
    Res.pure_resolution 1 [([] : Clause)] = some false :=
  ⟨by decide, by decide, by decide⟩

/-- Claim C3: simplify_clauses is claimed to drop stored supersets of an
inserted clause and to skip a clause that is a superset of a stored one,
keeping the subset-minimal clauses.  The code does the opposite: its
subset tests are reversed, so on the input with the unit clause (1)
followed by its strict superset (1 or 2), the unit clause is dropped and
only the superset is kept. -/
theorem c3_simplify_keeps_superset :
    DP.simplify_clauses [[1], [1, 2]] = [[1, 2]] := by decide

/-- Claim C4 counterexample: the parsers are claimed to preserve an empty
input clause.  On an input whose second line is the empty clause line
`0`, all three parsers return a clause set without any empty clause:
each one appends a parsed clause only when its residue is non-empty. -/
theorem c4_counterexample :
    Res.parse_cnf ["p cnf 1 2", "0", "1 0"] = [[1]] ∧
    DP.parse_cnf ["p cnf 1 2", "0", "1 0"] = Except.ok ([[1]], 1) ∧
    DPLL.parse_cnf ["p cnf 1 2", "0", "1 0"] = Except.ok [[1]] :=
  ⟨by decide, rfl, rfl⟩

/-- Claim C4, amended: each of the three parsers drops empty clauses, so
every clause it outputs is non-empty (and no engine ever sees an empty
clause coming from a parsed file). -/
theorem c4_parsers_drop_empty_clauses (lines : List String) :
    (∀ c ∈ Res.parse_cnf lines, c ≠ []) ∧
    (∀ (cs : List Clause) (n : Int),
        DP.parse_cnf lines = Except.ok (cs, n) → ∀ c ∈ cs, c ≠ []) ∧
    (∀ cs : List Clause, DPLL.parse_cnf lines = Except.ok cs → ∀ c ∈ cs, c ≠ []) := by
  refine ⟨?_, ?_, ?_⟩
  · intro c hc
    rw [Res.parse_cnf] at hc
    exact Res.res_parseLines_nonempty lines [] (by simp) c (mem_pySet c _ hc)
  · intro cs n h c hc
    exact DP.dp_parseLines_nonempty lines ([], 0) (by simp) (cs, n) h c hc
  · intro cs h c hc
    exact DPLL.dpll_parseLines_nonempty lines [] (by simp) cs h c hc

/-- Witness for the amended claim C4 at a concrete input. -/
theorem c4_witness : [1] ∈ Res.parse_cnf ["1 0"] ∧ ([1] : Clause) ≠ [] :=
  ⟨by decide, (c4_parsers_drop_empty_clauses ["1 0"]).1 [1] (by decide)⟩

/-- Claim C5: on the empty clause set, each engine returns SAT whenever
the deadline is not expired (at least one unit of fuel): resolution
completes an empty round with no resolvent, and DP and DPLL see an empty
formula right after propagation. -/
theorem c5_empty_formula_sat (fuel : Nat) :
    Res.pure_resolution (fuel + 1) [] = some true ∧
    DP.dp_solve (fuel + 1) [] = some true ∧
    DPLL.dpll_solve (fuel + 1) [] = some true :=
  ⟨rfl, rfl, rfl⟩

/-- Claim C6 counterexample: kept resolvents of the DP elimination step
are claimed never to be tautologies.  Eliminating variable 1 from the
pair (1 or 2) and (not 1 or not 2) keeps the resolvent (2 or not 2),
which is a tautology: dp_solve only discards resolvents that still
mention the eliminated variable. -/
theorem c6_counterexample :
    DP.eliminate 1 [[1, 2]] [[-2, -1]] = some [[-2, 2]] ∧ is_tautology [-2, 2] = true :=
  ⟨by decide, by decide⟩

/-- Claim C6, amended: every resolvent kept by the DP elimination step on
variable `v` contains neither `v` nor its negation (self-clash resolvents
are dropped); tautologies on other variables are not dropped. -/
theorem c6_resolvents_avoid_variable (v : Int) (pos neg out : List Clause)
    (hv : 0 < v) (h : DP.eliminate v pos neg = some out) :
    ∀ r ∈ out, v ∉ r ∧ (-v) ∉ r := by
  intro r hr
  have hany := DP.eliminate_no_var v pos neg out h r hr
  rw [List.any_eq_false] at hany
  constructor
  · intro hmem
    have h2 := hany v hmem
    simp [iabs_of_pos v hv] at h2
  · intro hmem
    have h2 := hany (-v) hmem
    simp [iabs_neg_of_pos v hv] at h2

/-- Witness for the amended claim C6 at a concrete input. -/
theorem c6_witness :
    (0 : Int) < 1 ∧ DP.eliminate 1 [[1, 2]] [[-1, 2]] = some [[2]] ∧
      (∀ r ∈ [([2] : Clause)], (1 : Int) ∉ r ∧ (-1 : Int) ∉ r) :=
  ⟨by decide, by decide,
    c6_resolvents_avoid_variable 1 [[1, 2]] [[-1, 2]] [[2]] (by decide) (by decide)⟩

/-- Claim C7: each engine polls the deadline at the top of every recursive
call (DP, DPLL) or saturation round (resolution), and an expired deadline
at such a poll yields the TIMEOUT sentinel `none`, a value distinct from
both SAT and UNSAT and passed through unchanged by every recursive
return site of the definitions.  For pure_resolution the first poll sits
after the initial empty-clause test, so the formula is required not to
contain the empty clause for the poll to be reached. -/
theorem c7_expired_deadline_timeout (F : List Clause) :
    DP.dp_solve 0 F = none ∧ DPLL.dpll_solve 0 F = none ∧
      (([] : Clause) ∉ F → Res.pure_resolution 0 F = none) := by
  refine ⟨rfl, rfl, ?_⟩
  intro h
  simp only [Res.pure_resolution]
  rw [if_neg (fun hx => h (mem_pySet [] F hx))]
  rfl

/-- Witness for claim C7 at a concrete input. -/
theorem c7_witness : ([] : Clause) ∉ [[1]] ∧ Res.pure_resolution 0 [[1]] = none :=
  ⟨by decide, (c7_expired_deadline_timeout [[1]]).2.2 (by decide)⟩

/-- Claim C8: unit propagation is idempotent in both the DP and the DPLL
implementation: a conflict-free result contains no unit clause, so a
second run returns it unchanged (with an empty assignment in the DP
case). -/
theorem c8_unit_propagation_idempotent :
    (∀ (F out : List Clause) (a : Assign),
        DP.unit_propagate F = some (out, false, a) →
        DP.unit_propagate out = some (out, false, [])) ∧
    (∀ F out : List Clause,
        DPLL.unit_propagate F = some (out, false) →
        DPLL.unit_propagate out = some (out, false)) := by
  constructor
  · intro F out a h
    exact DP.dp_propagate_of_no_units out
      (DP.dp_unitLoop_units_empty (F.length + 1) F [] out a h)
  · intro F out h
    exact DPLL.dpll_propagate_of_no_units out
      (DPLL.dpll_unitLoop_units_empty (F.length + 1) F [] out h)

/-- Witness for claim C8 at a concrete input. -/
theorem c8_witness :
    DP.unit_propagate [[1], [1, 2]] = some ([], false, [(1, true)]) ∧
    DP.unit_propagate [] = some ([], false, []) ∧
    DPLL.unit_propagate [[1], [1, 2]] = some ([], false) ∧
    DPLL.unit_propagate [] = some ([], false) := by
  refine ⟨by decide, ?_, by decide, ?_⟩
  · exact c8_unit_propagation_idempotent.1 [[1], [1, 2]] [] [(1, true)] (by decide)
  · exact c8_unit_propagation_idempotent.2 [[1], [1, 2]] [] (by decide)

/-- Claim C9 counterexample: parsing is claimed to fail on a non-cnf
header for all three core parsers, but the resolution parser skips every
header line unchecked: on an input with format type dnf it succeeds and
returns the parsed clause set. -/
theorem c9_counterexample : Res.parse_cnf ["p dnf 1 1", "1 0"] = [[1]] := by decide

/-- Claim C9, amended: an input containing a header line whose
format-type token differs from cnf makes the DP and DPLL parsers fail
with their invalid-format errors; the resolution parser performs no
header validation. -/
theorem c9_non_cnf_header_fails (lines : List String)
    (h : ∃ L ∈ lines, nonCnfHeader L) :
    (∃ e, DP.parse_cnf lines = Except.error e) ∧
    (∃ e, DPLL.parse_cnf lines = Except.error e) :=
  ⟨DP.dp_parseLines_header_err lines ([], 0) h, DPLL.dpll_parseLines_header_err lines [] h⟩

/-- Witness for the amended claim C9 at a concrete input. -/
theorem c9_witness :
    (∃ L ∈ ["p dnf 1 1", "1 0"], nonCnfHeader L) ∧
    (∃ e, DP.parse_cnf ["p dnf 1 1", "1 0"] = Except.error e) ∧
    (∃ e, DPLL.parse_cnf ["p dnf 1 1", "1 0"] = Except.error e) :=
  ⟨⟨"p dnf 1 1", by decide, by decide⟩,
    c9_non_cnf_header_fails ["p dnf 1 1", "1 0"] ⟨"p dnf 1 1", by decide, by decide⟩⟩

/-- Claim C10: a conflict-free result of unit propagation contains no
clause of size exactly one, in both the DP and the DPLL implementation:
the loops only return without conflict when the unit list of the current
clause set is empty. -/
theorem c10_no_unit_clause_after_propagation :
    (∀ (F out : List Clause) (a : Assign),
        DP.unit_propagate F = some (out, false, a) → ∀ c ∈ out, c.length ≠ 1) ∧
    (∀ F out : List Clause,
        DPLL.unit_propagate F = some (out, false) → ∀ c ∈ out, c.length ≠ 1) := by
  constructor
  · intro F out a h
    exact (unitsOf_eq_nil_iff out).mp (DP.dp_unitLoop_units_empty (F.length + 1) F [] out a h)
  · intro F out h
    exact (unitsOf_eq_nil_iff out).mp (DPLL.dpll_unitLoop_units_empty (F.length + 1) F [] out h)

/-- Witness for claim C10 at a concrete input. -/
theorem c10_witness :
    DP.unit_propagate [[1], [2, 3]] = some ([[2, 3]], false, [(1, true)]) ∧
    (∀ c ∈ [([2, 3] : Clause)], c.length ≠ 1) :=
  ⟨by decide,
    c10_no_unit_clause_after_propagation.1 [[1], [2, 3]] [[2, 3]] [(1, true)] (by decide)⟩

/-- Witness for claim C5 at a concrete fuel value. -/
theorem c5_witness :
    Res.pure_resolution 1 [] = some true ∧ DP.dp_solve 1 [] = some true ∧
      DPLL.dpll_solve 1 [] = some true :=
  c5_empty_formula_sat 0
